import Mathlib

/-!
Verification of the mem-syn memory-synthesis core against its specification.

This file is a shallow embedding of the Rust sources:
  * `src/src/dsl/trace.rs`   — `Trace`, normalization, `bits_required`;
  * `src/src/structures.rs`  — the domain model (`MemoryLayout`,
    `TopLevelMemoryLayout`, routing programs, `MemoryBank`, `Component`)
    together with its evaluation and validation semantics;
  * `src/src/solver.rs`      — the logical content of the SMT problem built by
    `solve_trace` (partition conditions, per-request constraints, cost), and
    the lifting of a model back into a `Component`.

Machine-integer conventions: `usize`/`u64` values are embedded as `Nat`; where
the Rust code can overflow or underflow, the arithmetic is made explicit modulo
`2 ^ 64` (resp. `2 ^ 32` for the one `u32` subtraction), matching release-mode
wrapping semantics.  Code paths that panic (out-of-bounds indexing, `unwrap` of
`None`) are embedded as `Option`, with `none` denoting the panic.
-/

namespace MemSyn

/-- Width in bits of the machine word (`std::mem::size_of::<usize>() * 8` on the
64-bit targets the crate is built for). -/
def WORD_BITS : Nat := 64

/-- Modulus of wrapping `u64` arithmetic. -/
def U64_MOD : Nat := 2 ^ 64

/-- Fuel-indexed helper computing the number of binary digits of its second
argument; the fuel makes the recursion structural so that the kernel can
evaluate it. -/
def bitLenAux : Nat → Nat → Nat
  | 0, _ => 0
  | fuel + 1, n => if n = 0 then 0 else bitLenAux fuel (n / 2) + 1

/-- Number of binary digits of `n` (`0` for `n = 0`). -/
def bitLength (n : Nat) : Nat := bitLenAux n n

/-- `u64::leading_zeros` of a value below `2 ^ 64`: the word width minus the
bit length of the value (`64` for input `0`). -/
def clz64 (n : Nat) : Nat := WORD_BITS - bitLength n

/-- `bits_required` (src/src/dsl/trace.rs:64-67):
`(bits as u32) - size.leading_zeros() - 1`.  The subtraction happens in `u32`
arithmetic, so the result is reduced modulo `2 ^ 32`; for `size = 0` the
subtraction underflows (release mode wraps, debug mode panics). -/
def bits_required (size : Nat) : Nat :=
  ((((WORD_BITS : Int) - (clz64 size : Int) - 1) % ((2 : Int) ^ 32))).toNat

/-- Spec-side definition (claim C6): `⌈log₂ n⌉`, the least `k` with `n ≤ 2 ^ k`,
written as the bit length of `n - 1`. -/
def ceilLog2 (n : Nat) : Nat := bitLength (n - 1)

/-- `MemoryLayout` (src/src/structures.rs:244-250). -/
inductive MemoryLayout where
  | Range (start finish stride : Nat)
  deriving DecidableEq

/-- `MemoryLayout::_contains` (src/src/structures.rs:422-430). -/
def MemoryLayout._contains (l : MemoryLayout) (target : Nat) : Bool :=
  match l with
  | .Range start finish stride =>
    decide (target ≥ start) && decide (target < finish) &&
      ((target - start) % stride == 0)

/-- `MemoryLayout::size` (src/src/structures.rs:442-450). -/
def MemoryLayout.size : MemoryLayout → Nat
  | .Range start finish stride => (finish - start) / stride + 1

/-- `MemoryLayout::_index_of` (src/src/structures.rs:432-440). -/
def MemoryLayout._index_of (l : MemoryLayout) (target : Nat) : Option Nat :=
  if l._contains target then
    match l with
    | .Range start _ stride => some ((target - start) / stride)
  else none

/-- `MemoryLayout::get` (src/src/structures.rs:484-491). -/
def MemoryLayout.get (l : MemoryLayout) (idx : Nat) : Option Nat :=
  if l.size ≤ idx then none
  else
    match l with
    | .Range start _ stride => some (start + stride * idx)

/-- `TopLevelMemoryLayout` (src/src/structures.rs:229-232). -/
structure TopLevelMemoryLayout where
  mems : List MemoryLayout
  deriving DecidableEq

/-- `TopLevelMemoryLayout::size` (src/src/structures.rs:238-240). -/
def TopLevelMemoryLayout.size (t : TopLevelMemoryLayout) : Nat :=
  (t.mems.map MemoryLayout.size).sum

/-- The loop of `TopLevelMemoryLayout::get` (src/src/structures.rs:514-524);
the running `bottom_idx` offset is realised by subtracting each passed
memory's size from the index. -/
def tlmGet : List MemoryLayout → Nat → Option Nat
  | [], _ => none
  | m :: rest, idx => if idx < m.size then m.get idx else tlmGet rest (idx - m.size)

/-- `TopLevelMemoryLayout::get` (src/src/structures.rs:514-524). -/
def TopLevelMemoryLayout.get (t : TopLevelMemoryLayout) (idx : Nat) : Option Nat :=
  tlmGet t.mems idx

/-- `ComparisonOperator` (src/src/structures.rs:302-310). -/
inductive ComparisonOperator where
  | LessThan
  | Equal
  | GreaterThan
  | NotEqual
  | LessThanOrEqual
  | GreaterThanOrEqual
  deriving DecidableEq

/-- `ComparisonOperator::eval` (src/src/structures.rs:318-329). -/
def ComparisonOperator.eval (op : ComparisonOperator) (left right : Nat) : Bool :=
  match op with
  | .LessThan => decide (left < right)
  | .Equal => left == right
  | .GreaterThan => decide (left > right)
  | .NotEqual => left != right
  | .LessThanOrEqual => decide (left ≤ right)
  | .GreaterThanOrEqual => decide (left ≥ right)

/-- `Condition` (src/src/structures.rs:293-300). -/
inductive Condition where
  | ComparisonPortVal (val : Nat) (op : ComparisonOperator)
  | ComparisonValPort (val : Nat) (op : ComparisonOperator)
  | And (c1 c2 : Condition)
  | Or (c1 c2 : Condition)
  | Not (c : Condition)
  deriving DecidableEq

/-- `Condition::eval` (src/src/structures.rs:331-341). -/
def Condition.eval : Condition → Nat → Bool
  | .ComparisonPortVal val op, port_val => op.eval port_val val
  | .ComparisonValPort val op, port_val => op.eval val port_val
  | .And c1 c2, port_val => c1.eval port_val && c2.eval port_val
  | .Or c1 c2, port_val => c1.eval port_val || c2.eval port_val
  | .Not c, port_val => !(c.eval port_val)

/-- `TerminalRoutingProgram` (src/src/structures.rs:282-291). -/
inductive TerminalRoutingProgram where
  | RShift (amount : Nat)
  | Add (v : Nat)
  | SubPortVal (v : Nat)
  | SubValPort (v : Nat)
  | Constant (v : Nat)
  | Noop
  deriving DecidableEq

/-- `TerminalRoutingProgram::eval` (src/src/structures.rs:343-354).  The Rust
arithmetic is on `u64`: addition and subtraction wrap modulo `2 ^ 64`
(release mode; debug mode panics on over/underflow), and the shift amount of
`>>` is taken modulo the word width. -/
def TerminalRoutingProgram.eval (p : TerminalRoutingProgram) (port_val : Nat) : Nat :=
  match p with
  | .Add v => (port_val + v) % U64_MOD
  | .SubPortVal v => ((((port_val : Int) - (v : Int)) % (U64_MOD : Int))).toNat
  | .SubValPort v => ((((v : Int) - (port_val : Int)) % (U64_MOD : Int))).toNat
  | .Constant c => c
  | .RShift amount => port_val >>> (amount % WORD_BITS)
  | .Noop => port_val

/-- `SequenceRoutingProg` (src/src/structures.rs:276-280). -/
inductive SequenceRoutingProg where
  | Sequence (progs : List TerminalRoutingProgram)
  | Prog (p : TerminalRoutingProgram)
  deriving DecidableEq

/-- `SequenceRoutingProg::eval` (src/src/structures.rs:356-363). -/
def SequenceRoutingProg.eval (s : SequenceRoutingProg) (port_val : Nat) : Nat :=
  match s with
  | .Sequence progs => progs.foldl (fun acc x => x.eval acc) port_val
  | .Prog p => p.eval port_val

/-- `TopLevelRoutingProgram` (src/src/structures.rs:267-274). -/
inductive TopLevelRoutingProgram where
  | Switch (cases : List (Condition × SequenceRoutingProg)) (dflt : SequenceRoutingProg)
  | Prog (p : SequenceRoutingProg)
  deriving DecidableEq

/-- The case loop of `TopLevelRoutingProgram::eval` (src/src/structures.rs:368-374). -/
def switchEval : List (Condition × SequenceRoutingProg) → SequenceRoutingProg → Nat → Nat
  | [], d, a => d.eval a
  | (cond, prog) :: rest, d, a => if cond.eval a then prog.eval a else switchEval rest d a

/-- `TopLevelRoutingProgram::eval` (src/src/structures.rs:365-379). -/
def TopLevelRoutingProgram.eval (p : TopLevelRoutingProgram) (port_val : Nat) : Nat :=
  match p with
  | .Switch cases d => switchEval cases d port_val
  | .Prog s => s.eval port_val

/-- `MemoryBank` (src/src/structures.rs:140-144). -/
structure MemoryBank where
  routing : TopLevelRoutingProgram
  memory_layout : TopLevelMemoryLayout
  deriving DecidableEq

/-- `MemoryBank::can_read` (src/src/structures.rs:381-387). -/
def MemoryBank.can_read (b : MemoryBank) (index : Nat) : Bool :=
  match b.memory_layout.get (b.routing.eval index) with
  | some x => x == index
  | none => false

/-- `Trace` (src/src/dsl/trace.rs:4-12), already JSON-decoded: decoding is done
by the external `serde_json` crate (out of scope per spec §1). -/
structure Trace where
  size : Nat
  bitwidth : Nat
  trace : List (List (Option Nat))
  deriving DecidableEq

/-- `Trace::num_ports` (src/src/dsl/trace.rs:50-52): the length of the first
line, or `0` for an empty trace. -/
def Trace.num_ports (t : Trace) : Nat :=
  match t.trace with
  | [] => 0
  | line :: _ => line.length

/-- `Iterator::max().unwrap_or_default()` over a list of naturals. -/
def listMax (l : List Nat) : Nat := l.foldr Nat.max 0

/-- `Trace::ports_required` (src/src/dsl/trace.rs:46-48). -/
def Trace.ports_required (t : Trace) : Nat := listMax (t.trace.map List.length)

/-- The padding loop of `Trace::normalize`: pushes `None` until the line has
length `n`. -/
def padLine (n : Nat) (line : List (Option Nat)) : List (Option Nat) :=
  line ++ List.replicate (n - line.length) none

/-- `Trace::normalize` (src/src/dsl/trace.rs:31-44): drop all-absent lines,
then pad the remaining lines to the maximum length among them. -/
def Trace.normalize (t : Trace) : Trace :=
  let kept := t.trace.filter (fun line => line.any (fun s => s.isSome))
  let pr := listMax (kept.map List.length)
  { size := t.size, bitwidth := t.bitwidth, trace := kept.map (padLine pr) }

/-- `Trace::parse_trace` (src/src/dsl/trace.rs:23-27) after successful JSON
decoding: it only normalizes the decoded value and performs no further checks
(in particular none on `size`). -/
def Trace.parse_trace (t : Trace) : Trace := t.normalize

/-- `Component` (src/src/structures.rs:8-20). -/
structure Component where
  size : Nat
  width : Nat
  address_bit_width : Nat
  port_count : Nat
  banks : List MemoryBank
  deriving DecidableEq

/-- `Component::from_trace` (src/src/structures.rs:23-31). -/
def Component.from_trace (banks : List MemoryBank) (t : Trace) : Component :=
  { size := t.size
    width := t.bitwidth
    address_bit_width := bits_required t.size
    port_count := t.num_ports
    banks := banks }

/-- `Component::from_parse` (src/src/structures.rs:32-40): note that
`address_bit_width` is derived from the element `width`, not from `size`. -/
def Component.from_parse (size width : Nat) (banks : List MemoryBank) : Component :=
  { size := size
    width := width
    address_bit_width := bits_required width
    port_count := banks.length
    banks := banks }

/-- The inner slot loop of `Component::vailidate` (src/src/structures.rs:126-137),
carrying the enumeration index.  `banks[idx]` panics when `idx` is out of
bounds, embedded as `none`; a failing `can_read` returns `false` immediately. -/
def vailidateLine (banks : List MemoryBank) : Nat → List (Option Nat) → Option Bool
  | _, [] => some true
  | idx, none :: rest => vailidateLine banks (idx + 1) rest
  | idx, some a :: rest =>
    match banks[idx]? with
    | none => none
    | some b => if b.can_read a then vailidateLine banks (idx + 1) rest else some false

/-- The outer line loop of `Component::vailidate`. -/
def vailidateLines (banks : List MemoryBank) : List (List (Option Nat)) → Option Bool
  | [] => some true
  | line :: rest =>
    match vailidateLine banks 0 line with
    | some true => vailidateLines banks rest
    | some false => some false
    | none => none

/-- `Component::vailidate` (src/src/structures.rs:126-137); the source spells
the name with the transposition. -/
def Component.vailidate (c : Component) (t : Trace) : Option Bool :=
  vailidateLines c.banks t.trace

/-! ### The SMT problem built by `solve_trace` (src/src/solver.rs)

`solve_trace` builds, per port, a `TerminalProgram` datatype constant over
bit-vectors of width `addr_size = trace.bits_required()` and a `Partition`
datatype constant with integer fields, asserts partition-validity and
per-request constraints, minimizes the partition cost and lifts the model.
The declarations below embed a candidate model assignment and the asserted
constraints; satisfaction of `satisfies` is exactly satisfaction of the
conjunction of assertions passed to the optimizer. -/

/-- The `TerminalProgram` SMT datatype (src/src/solver.rs:245-282); each
payload is a bit-vector of width `addr_size`. -/
inductive SmtTerminal where
  | NOOP
  | RShift (v : Nat)
  | Add (v : Nat)
  | SubPV (v : Nat)
  | SubVP (v : Nat)
  | Constant (v : Nat)
  deriving DecidableEq

/-- The `Partition` SMT datatype (src/src/solver.rs:284-296) with its single
`Range(start_v, end_v, stride_v)` variant over the integer sort. -/
structure Partition where
  start_v : Int
  end_v : Int
  stride_v : Int
  deriving DecidableEq

/-- One port's pair of model constants `map_addr_i` and `bank_i`
(src/src/solver.rs:306-312). -/
structure PortAssignment where
  prog : SmtTerminal
  bank : Partition
  deriving DecidableEq

/-- The value of the fresh integer `out` pinned by the variant implications of
`apply_terminal` (src/src/solver.rs:118-222) for input `a`: the input is
converted to a bit-vector of width `w` (truncating to `a mod 2 ^ w`), the
variant arithmetic happens in width-`w` bit-vectors, and
`out_bv.to_int(false) = out` forces `out` into `[0, 2 ^ w)`. -/
def smtOut (w : Nat) (p : SmtTerminal) (a : Nat) : Nat :=
  match p with
  | .NOOP => a % 2 ^ w
  | .RShift v => (a % 2 ^ w) >>> v
  | .Add v => (v + a) % 2 ^ w
  | .SubPV v => ((((a : Int) - (v : Int)) % ((2 : Int) ^ w))).toNat
  | .SubVP v => ((((v : Int) - (a : Int)) % ((2 : Int) ^ w))).toNat
  | .Constant v => v % 2 ^ w

/-- Well-formedness of a model value of the `TerminalProgram` datatype: its
payload is a width-`w` bit-vector value. -/
def termWf (w : Nat) : SmtTerminal → Prop
  | .NOOP => True
  | .RShift v => v < 2 ^ w
  | .Add v => v < 2 ^ w
  | .SubPV v => v < 2 ^ w
  | .SubVP v => v < 2 ^ w
  | .Constant v => v < 2 ^ w

/-- `ProblemContext::partition_conditions` for one bank
(src/src/solver.rs:43-77): `start ≥ 0 ∧ finish > start ∧ finish ≤ size ∧
stride > 0`. -/
def bankConds (size : Nat) (b : Partition) : Prop :=
  0 ≤ b.start_v ∧ b.start_v < b.end_v ∧ b.end_v ≤ (size : Int) ∧ 0 < b.stride_v

/-- The assertions emitted for one non-absent request `a` at one port
(src/src/solver.rs:79-116 and 324-337): with
`actual = start + out * stride`, assert `actual < finish` (`map_addr`
validity), `actual = a`, `actual < size` and `actual ≥ 0`. -/
def requestConds (w size : Nat) (pa : PortAssignment) (a : Nat) : Prop :=
  pa.bank.start_v + (smtOut w pa.prog a : Int) * pa.bank.stride_v < pa.bank.end_v ∧
  pa.bank.start_v + (smtOut w pa.prog a : Int) * pa.bank.stride_v = (a : Int) ∧
  pa.bank.start_v + (smtOut w pa.prog a : Int) * pa.bank.stride_v < (size : Int) ∧
  0 ≤ pa.bank.start_v + (smtOut w pa.prog a : Int) * pa.bank.stride_v

/-- Per-slot constraint: absent slots contribute nothing
(src/src/solver.rs:325-326). -/
def slotConds (w size : Nat) (pa : PortAssignment) : Option Nat → Prop
  | none => True
  | some a => requestConds w size pa a

/-- A model assignment satisfies the conjunction of all assertions passed to
the optimizer in `solve_trace` (src/src/solver.rs:298-338): one port pair per
trace port, well-formed datatype values, the partition conditions for every
bank, and the request constraints for every non-absent slot of every line
(slot `i` of a line is constrained against port pair `i`; a line longer than
the port list would make `solve_trace` panic on indexing before reaching the
solver, hence the length condition). -/
def satisfies (t : Trace) (asg : List PortAssignment) : Prop :=
  asg.length = t.num_ports ∧
  (∀ pa ∈ asg, termWf (bits_required t.size) pa.prog) ∧
  (∀ pa ∈ asg, bankConds t.size pa.bank) ∧
  ∀ line ∈ t.trace, line.length ≤ asg.length ∧
    ∀ pr ∈ line.zip asg, slotConds (bits_required t.size) t.size pr.2 pr.1

instance (w : Nat) (p : SmtTerminal) : Decidable (termWf w p) :=
  match p with
  | .NOOP => inferInstanceAs (Decidable True)
  | .RShift v => inferInstanceAs (Decidable (v < 2 ^ w))
  | .Add v => inferInstanceAs (Decidable (v < 2 ^ w))
  | .SubPV v => inferInstanceAs (Decidable (v < 2 ^ w))
  | .SubVP v => inferInstanceAs (Decidable (v < 2 ^ w))
  | .Constant v => inferInstanceAs (Decidable (v < 2 ^ w))

instance (size : Nat) (b : Partition) : Decidable (bankConds size b) := by
  unfold bankConds; infer_instance

instance (w size : Nat) (pa : PortAssignment) (a : Nat) :
    Decidable (requestConds w size pa a) := by
  unfold requestConds; infer_instance

instance (w size : Nat) (pa : PortAssignment) (o : Option Nat) :
    Decidable (slotConds w size pa o) :=
  match o with
  | none => inferInstanceAs (Decidable True)
  | some a => inferInstanceAs (Decidable (requestConds w size pa a))

instance (t : Trace) (asg : List PortAssignment) : Decidable (satisfies t asg) := by
  unfold satisfies; infer_instance

/-- `ProblemContext::partition_cost` (src/src/solver.rs:18-41): the product
over all banks of `(finish - start) / stride + 1`, folded from `1`.  Division
on the SMT integer sort is Euclidean. -/
def partition_cost (asg : List PortAssignment) : Int :=
  asg.foldl
    (fun acc pa => acc * ((pa.bank.end_v - pa.bank.start_v) / pa.bank.stride_v + 1)) 1

/-- Modelled from the spec: the solver-echo dialect grammar (`syntax.pest`)
and the generated pest parser are not under `src/`; per spec §8
("for every model the solver produces, `parse_echo(print(model)) = <domain
value>`") and §4.2, printing a `TerminalProgram` model value and re-parsing it
through `AstParser::parse_z3_address_translation` yields the corresponding
domain variant with the same payload. -/
def liftTerminal : SmtTerminal → TerminalRoutingProgram
  | .NOOP => .Noop
  | .RShift v => .RShift v
  | .Add v => .Add v
  | .SubPV v => .SubPortVal v
  | .SubVP v => .SubValPort v
  | .Constant v => .Constant v

/-- One bank of `ProblemContext::extract_description` (src/src/solver.rs:224-242):
the printed `Range(start, end, stride)` model value re-parsed through
`AstParser::parse_partition` becomes a one-range `TopLevelMemoryLayout`
(src/src/dsl/ast.rs:271-277), and the routing program a single terminal. -/
def liftBank (pa : PortAssignment) : MemoryBank :=
  { routing := .Prog (.Prog (liftTerminal pa.prog))
    memory_layout :=
      { mems := [MemoryLayout.Range pa.bank.start_v.toNat pa.bank.end_v.toNat
          pa.bank.stride_v.toNat] } }

/-- `ProblemContext::extract_description` (src/src/solver.rs:224-242). -/
def extract_description (t : Trace) (asg : List PortAssignment) : Component :=
  Component.from_trace (asg.map liftBank) t

/-- The tail of `solve_trace` (src/src/solver.rs:359-367) as a function of the
solver's outcome: `solver.get_model()` returns `none` exactly when the
problem is unsatisfiable, and `.unwrap()` then panics (embedded as `none`);
there is no error value and no retry — a `some` model is lifted, a `none`
aborts. -/
def solve_trace (t : Trace) (model : Option (List PortAssignment)) : Option Component :=
  model.map (extract_description t)

/-- Agreement, on one trace slot, of the domain (`u64`) evaluation of the
lifted routing terminal with the width-`w` bit-vector evaluation used in the
SMT encoding. -/
def agreeSlot (w : Nat) (pa : PortAssignment) : Option Nat → Prop
  | none => True
  | some a => (liftTerminal pa.prog).eval a = smtOut w pa.prog a

instance (w : Nat) (pa : PortAssignment) (o : Option Nat) :
    Decidable (agreeSlot w pa o) :=
  match o with
  | none => inferInstanceAs (Decidable True)
  | some a =>
    inferInstanceAs (Decidable ((liftTerminal pa.prog).eval a = smtOut w pa.prog a))

/-- Modelled from the spec: `AstParser::parse_component` and the author-dialect
grammar file are not under `src/` (only the calls in src/src/main.rs:91 and
113 are).  Per spec §4.5/§8 the pretty printer "is the inverse of the
author-dialect parser up to whitespace" at the textual layer, so parsing
`Component::pretty_print`'s output (src/src/structures.rs:694-704, header
`memory<width,size>` followed by the banks) recovers the printed `width`,
`size` and banks, and the parser entry assembles them with
`Component::from_parse` (src/src/structures.rs:32-40). -/
def parse_author_of_pretty (c : Component) : Component :=
  Component.from_parse c.size c.width c.banks

/-! ### Concrete inputs used by counterexamples and witnesses -/

/-- A one-port bank with `NOOP` routing and layout `[0:4:1]`. -/
def bankNoop04 : MemoryBank :=
  { routing := .Prog (.Prog .Noop), memory_layout := { mems := [.Range 0 4 1] } }

/-- A one-port bank with `NOOP` routing and layout `[0:16:1]`. -/
def bankNoop016 : MemoryBank :=
  { routing := .Prog (.Prog .Noop), memory_layout := { mems := [.Range 0 16 1] } }

/-- Single-port trace over a size-16 memory. -/
def traceC8 : Trace := ⟨16, 8, [[some 0]]⟩

/-- A synthesized-style component over `traceC8`: its `address_bit_width` is
`bits_required 16 = 4`. -/
def compC8 : Component := Component.from_trace [bankNoop016] traceC8

/-- A parsed-style component (`from_parse`), whose `address_bit_width` is
derived from its width. -/
def compC8W : Component := Component.from_parse 8 8 [bankNoop04]

/-- Single-port trace reading addresses 0 and 1 of a size-4 memory. -/
def traceC2 : Trace := ⟨4, 8, [[some 0], [some 1]]⟩

/-- A valid single-bank component for `traceC2`. -/
def compC2 : Component := Component.from_trace [bankNoop04] traceC2

/-- Trace with one request of address 1 against a size-2 memory
(`addr_size = bits_required 2 = 1`). -/
def traceC1bad : Trace := ⟨2, 8, [[some 1]]⟩

/-- A cost-optimal satisfying model for `traceC1bad`: routing `Add(1)` and
partition `Range(1, 2, 2)`.  In the width-1 bit-vector encoding
`(1 + 1) mod 2 = 0`, so the constraints hold with `out = 0`, but the domain
evaluation `1 + 1 = 2` falls outside the lifted layout. -/
def asgC1bad : List PortAssignment := [⟨.Add 1, ⟨1, 2, 2⟩⟩]

/-- Single-port identity trace over a size-4 memory (spec §8, scenario 1). -/
def traceC1good : Trace := ⟨4, 8, [[some 0], [some 1], [some 2], [some 3]]⟩

/-- The identity model for `traceC1good`: `NOOP` with `Range(0, 4, 1)`. -/
def asgC1good : List PortAssignment := [⟨.NOOP, ⟨0, 4, 1⟩⟩]

/-- A trace requesting address 5 of a size-2 memory: the request constraints
`actual = 5` and `actual < 2` are contradictory, so the SMT problem is
unsatisfiable. -/
def traceUnsat : Trace := ⟨2, 8, [[some 5]]⟩

/-- A decoded trace document with `"size": 0`. -/
def traceSizeZero : Trace := ⟨0, 8, [[some 0]]⟩

/-- A sparse trace (spec §8, scenario 4) exercising normalization. -/
def traceC7 : Trace := ⟨4, 8, [[some 0, none], [none], [none, some 2, some 3]]⟩

/-! ## Helper lemmas -/

theorem bitLenAux_zero (fuel : Nat) : bitLenAux fuel 0 = 0 := by
  cases fuel <;> simp [bitLenAux]

theorem bitLenAux_spec :
    ∀ (k fuel n : Nat), n ≤ fuel → 2 ^ k ≤ n → n < 2 ^ (k + 1) →
      bitLenAux fuel n = k + 1 := by
  intro k
  induction k with
  | zero =>
    intro fuel n hf h1 h2
    have h1a : 1 ≤ n := by simpa using h1
    have h2a : n < 2 := by simpa using h2
    have hn : n = 1 := by omega
    subst hn
    cases fuel with
    | zero => omega
    | succ f => simp [bitLenAux, bitLenAux_zero]
  | succ k ih =>
    intro fuel n hf h1 h2
    have hk2 : (2 : Nat) ≤ 2 ^ (k + 1) := Nat.one_lt_two_pow (by omega)
    have hn2 : 2 ≤ n := le_trans hk2 h1
    cases fuel with
    | zero => omega
    | succ f =>
      have hne : n ≠ 0 := by omega
      rw [bitLenAux, if_neg hne]
      have hdivf : n / 2 ≤ f := by
        have : n / 2 < n := Nat.div_lt_self (by omega) (by omega)
        omega
      have hlow : 2 ^ k ≤ n / 2 := by
        rw [Nat.le_div_iff_mul_le (by omega : 0 < 2)]
        calc 2 ^ k * 2 = 2 ^ (k + 1) := (pow_succ 2 k).symm
        _ ≤ n := h1
      have hhigh : n / 2 < 2 ^ (k + 1) := by
        rw [Nat.div_lt_iff_lt_mul (by omega : 0 < 2)]
        calc n < 2 ^ (k + 2) := h2
        _ = 2 ^ (k + 1) * 2 := pow_succ 2 (k + 1)
      rw [ih f (n / 2) hdivf hlow hhigh]

theorem bitLength_spec {n k : Nat} (h1 : 2 ^ k ≤ n) (h2 : n < 2 ^ (k + 1)) :
    bitLength n = k + 1 :=
  bitLenAux_spec k n n le_rfl h1 h2

theorem bits_required_eq {n k : Nat} (h1 : 2 ^ k ≤ n) (h2 : n < 2 ^ (k + 1))
    (h64 : n < 2 ^ 64) : bits_required n = k := by
  have hb := bitLength_spec h1 h2
  have hk : k + 1 ≤ 64 := by
    by_contra hc
    have h64k : (64 : Nat) ≤ k := by omega
    have : 2 ^ 64 ≤ 2 ^ k := Nat.pow_le_pow_right (by omega) h64k
    omega
  unfold bits_required clz64 WORD_BITS
  rw [hb]
  have hp : ((2 : Int) ^ 32) = 4294967296 := by norm_num
  rw [hp]
  omega

/-! ## Claim C6 -/

/-- C6, counterexample: the claim states `bits_required(size) = ⌈log₂ size⌉`,
but at `size = 5` the code computes `64 − clz(5) − 1 = 2` while
`⌈log₂ 5⌉ = 3`. -/
theorem c6_bits_counterexample :
    bits_required 5 ≠ ceilLog2 5 ∧ bits_required 5 = 2 ∧ ceilLog2 5 = 3 := by
  decide

/-- C6, amended: for every `size ≥ 1` (below the `u64` range),
`bits_required(size)` equals `⌊log₂ size⌋` — the exponent `k` with
`2^k ≤ size < 2^(k+1)` — computed as machine word bits − leading_zeros − 1. -/
theorem c6_bits_amended {n k : Nat} (h1 : 2 ^ k ≤ n) (h2 : n < 2 ^ (k + 1))
    (h64 : n < 2 ^ 64) : bits_required n = k :=
  bits_required_eq h1 h2 h64

/-- C6, witness: `bits_required 5 = 2 = ⌊log₂ 5⌋`. -/
theorem c6_bits_witness :
    2 ^ 2 ≤ 5 ∧ 5 < 2 ^ (2 + 1) ∧ 5 < 2 ^ 64 ∧ bits_required 5 = 2 :=
  ⟨by decide, by decide, by decide,
    c6_bits_amended (by decide) (by decide) (by decide)⟩

/-! ## Claim C10 -/

/-- C10: `Trace::parse_trace` accepts a document with `"size": 0` unchanged
(normalization touches only the lines), and `bits_required 0` underflows: the
`u32` computation `64 − leading_zeros(0) − 1 = 64 − 64 − 1` is negative and
wraps to `2^32 − 1`, which is not a bit width of any machine value. -/
theorem c10_size_zero_theorem :
    (Trace.parse_trace traceSizeZero).size = 0 ∧
    (Trace.parse_trace traceSizeZero).trace = [[some 0]] ∧
    ((WORD_BITS : Int) - (clz64 0 : Int) - 1) < 0 ∧
    bits_required 0 = 2 ^ 32 - 1 ∧
    64 < bits_required ((Trace.parse_trace traceSizeZero).size) := by
  decide

/-! ## Claim C9 -/

/-- C9: `Component::from_parse` derives `address_bit_width` from the element
data `width` — hence it is independent of the `size` argument — whereas
`Component::from_trace` derives it from the trace's `size`. -/
theorem c9_from_parse_theorem (size size2 width : Nat) (banks bs : List MemoryBank)
    (t : Trace) :
    (Component.from_parse size width banks).address_bit_width = bits_required width ∧
    (Component.from_parse size width banks).address_bit_width
      = (Component.from_parse size2 width banks).address_bit_width ∧
    (Component.from_trace bs t).address_bit_width = bits_required t.size :=
  ⟨rfl, rfl, rfl⟩

/-! ## Claim C3 -/

/-- C3, counterexample: for `Range{0, 4, 2}` the code's `size()` is
`(4−0)/2 + 1 = 3`, not the claimed `⌊(4−0−1)/2⌋ + 1 = 2`; consequently
`get(2) = some 4` but `4` is outside the range, so `_contains 4` is false and
`_index_of 4` is undefined. -/
theorem c3_layout_counterexample :
    (MemoryLayout.Range 0 4 2).size ≠ (4 - 0 - 1) / 2 + 1 ∧
    (MemoryLayout.Range 0 4 2).size = 3 ∧
    (MemoryLayout.Range 0 4 2).get 2 = some 4 ∧
    (MemoryLayout.Range 0 4 2)._contains 4 = false ∧
    (MemoryLayout.Range 0 4 2)._index_of 4 = none := by
  decide

/-- C3, amended: for every `Range` with `start < finish` and `stride ≥ 1`, the
capacity `size()` equals `⌊(finish − start)/stride⌋ + 1` (one more than the
claimed formula when `stride` divides `finish − start`); `get i` is defined
exactly when `i < size()`; and whenever `get i = some v` *and `v < finish`*,
`_contains v` holds and `_index_of v = some i`. -/
theorem c3_layout_amended (start finish stride : Nat) (h1 : start < finish)
    (h2 : 1 ≤ stride) :
    (MemoryLayout.Range start finish stride).size = (finish - start) / stride + 1 ∧
    (∀ i, ((MemoryLayout.Range start finish stride).get i).isSome
      ↔ i < (MemoryLayout.Range start finish stride).size) ∧
    (∀ i v, (MemoryLayout.Range start finish stride).get i = some v → v < finish →
      (MemoryLayout.Range start finish stride)._contains v = true ∧
      (MemoryLayout.Range start finish stride)._index_of v = some i) := by
  refine ⟨rfl, ?_, ?_⟩
  · intro i
    by_cases h : (MemoryLayout.Range start finish stride).size ≤ i <;>
      simp [MemoryLayout.get, h] <;> omega
  · intro i v hget hvf
    have hiv : v = start + stride * i := by
      by_cases h : (MemoryLayout.Range start finish stride).size ≤ i
      · simp [MemoryLayout.get, h] at hget
      · simp [MemoryLayout.get, h] at hget
        omega
    subst hiv
    have hcont : (MemoryLayout.Range start finish stride)._contains
        (start + stride * i) = true := by
      simp only [MemoryLayout._contains, Bool.and_eq_true, decide_eq_true_eq,
        beq_iff_eq, ge_iff_le]
      refine ⟨⟨Nat.le_add_right _ _, hvf⟩, ?_⟩
      rw [Nat.add_sub_cancel_left]
      exact Nat.mul_mod_right stride i
    refine ⟨hcont, ?_⟩
    rw [MemoryLayout._index_of, if_pos hcont]
    rw [Nat.add_sub_cancel_left, Nat.mul_div_cancel_left i (by omega : 0 < stride)]

/-- C3, witness: the amended theorem applied to `Range{0, 4, 1}`. -/
theorem c3_layout_witness :
    (0 : Nat) < 4 ∧ (1 : Nat) ≤ 1 ∧
    ((MemoryLayout.Range 0 4 1).size = (4 - 0) / 1 + 1 ∧
      (∀ i, ((MemoryLayout.Range 0 4 1).get i).isSome
        ↔ i < (MemoryLayout.Range 0 4 1).size) ∧
      (∀ i v, (MemoryLayout.Range 0 4 1).get i = some v → v < 4 →
        (MemoryLayout.Range 0 4 1)._contains v = true ∧
        (MemoryLayout.Range 0 4 1)._index_of v = some i)) :=
  ⟨by decide, by decide, c3_layout_amended 0 4 1 (by decide) (by decide)⟩

/-! ## Claim C5 -/

/-- C5, counterexample: `eval` is not the claimed partial-difference function
on naturals.  At `SubPortVal(1)` applied to `0`, the `u64` subtraction wraps
(release mode) to `2^64 − 1` — in debug mode it panics — rather than
producing `a − k`. -/
theorem c5_eval_counterexample :
    TerminalRoutingProgram.eval (.SubPortVal 1) 0 = 2 ^ 64 - 1 ∧
    (0 : Nat) - 1 = 0 ∧
    TerminalRoutingProgram.eval (.SubPortVal 1) 0 ≠ (0 : Nat) - 1 ∧
    ¬ ∃ r : Nat, (r : Int) = (0 : Int) - 1 := by
  refine ⟨by decide, by decide, by decide, ?_⟩
  rintro ⟨r, hr⟩
  omega

/-- C5, amended: `eval` is total on `u64` values with wrapping (release-mode)
semantics: `Noop ↦ a`; `RShift(n) ↦ a >> (n mod 64)`;
`Add(k) ↦ (a + k) mod 2^64`; `SubPortVal(k) ↦ (a − k) mod 2^64`, which is
`a − k` when `k ≤ a` and wraps to `2^64 + a − k` when `a < k` (debug builds
panic instead); symmetrically for `SubValPort(k) ↦ (k − a) mod 2^64`;
`Constant(k) ↦ k`. -/
theorem c5_eval_amended (v amount a : Nat) (ha : a < 2 ^ 64) (hv : v < 2 ^ 64) :
    TerminalRoutingProgram.eval .Noop a = a ∧
    TerminalRoutingProgram.eval (.Constant v) a = v ∧
    TerminalRoutingProgram.eval (.RShift amount) a = a / 2 ^ (amount % 64) ∧
    TerminalRoutingProgram.eval (.Add v) a = (a + v) % 2 ^ 64 ∧
    (v ≤ a → TerminalRoutingProgram.eval (.SubPortVal v) a = a - v) ∧
    (a < v → TerminalRoutingProgram.eval (.SubPortVal v) a = 2 ^ 64 + a - v) ∧
    (a ≤ v → TerminalRoutingProgram.eval (.SubValPort v) a = v - a) ∧
    (v < a → TerminalRoutingProgram.eval (.SubValPort v) a = 2 ^ 64 + v - a) := by
  have hm : ((U64_MOD : Nat) : Int) = 18446744073709551616 := by decide
  have hmn : (U64_MOD : Nat) = 18446744073709551616 := by decide
  refine ⟨rfl, rfl, ?_, ?_, ?_, ?_, ?_, ?_⟩
  · show a >>> (amount % WORD_BITS) = a / 2 ^ (amount % 64)
    rw [Nat.shiftRight_eq_div_pow]
    rfl
  · show (a + v) % U64_MOD = (a + v) % 2 ^ 64
    rfl
  · intro hva
    show ((((a : Int) - (v : Int)) % ((U64_MOD : Nat) : Int))).toNat = a - v
    rw [hm]
    omega
  · intro hav
    show ((((a : Int) - (v : Int)) % ((U64_MOD : Nat) : Int))).toNat = 2 ^ 64 + a - v
    rw [hm]
    have h64 : (2 : Nat) ^ 64 = 18446744073709551616 := by norm_num
    rw [h64]
    omega
  · intro hav
    show ((((v : Int) - (a : Int)) % ((U64_MOD : Nat) : Int))).toNat = v - a
    rw [hm]
    omega
  · intro hva
    show ((((v : Int) - (a : Int)) % ((U64_MOD : Nat) : Int))).toNat = 2 ^ 64 + v - a
    rw [hm]
    have h64 : (2 : Nat) ^ 64 = 18446744073709551616 := by norm_num
    rw [h64]
    omega

/-! ## Claim C7 -/

theorem le_listMax {l : List Nat} {a : Nat} (h : a ∈ l) : a ≤ listMax l := by
  induction l with
  | nil => cases h
  | cons x xs ih =>
    rcases List.mem_cons.mp h with h1 | h2
    · subst h1
      exact Nat.le_max_left _ _
    · exact le_trans (ih h2) (Nat.le_max_right _ _)

theorem listMax_all_eq {l : List Nat} {m : Nat} (h : ∀ a ∈ l, a = m) :
    l = [] ∨ listMax l = m := by
  induction l with
  | nil => exact Or.inl rfl
  | cons x xs ih =>
    right
    have hx : x = m := h x (List.mem_cons_self _ _)
    rcases ih (fun a ha => h a (List.mem_cons_of_mem _ ha)) with hnil | hmax
    · subst hnil
      simp [listMax, hx]
    · show Nat.max x (listMax xs) = m
      rw [hx, hmax]
      exact Nat.max_self m

theorem padLine_length {n : Nat} {line : List (Option Nat)}
    (h : line.length ≤ n) : (padLine n line).length = n := by
  simp [padLine]
  omega

theorem any_replicate_none (k : Nat) :
    (List.replicate k (none : Option Nat)).any (fun s => s.isSome) = false := by
  induction k with
  | zero => rfl
  | succ k ih => simpa [List.replicate] using ih

theorem padLine_any (n : Nat) (line : List (Option Nat)) :
    (padLine n line).any (fun s => s.isSome) = line.any (fun s => s.isSome) := by
  rw [padLine, List.any_append, any_replicate_none, Bool.or_false]

theorem padLine_of_length_eq {n : Nat} {line : List (Option Nat)}
    (h : line.length = n) : padLine n line = line := by
  rw [padLine, h, Nat.sub_self, List.replicate_zero, List.append_nil]

/-- Unfolding of `Trace.normalize` without the let bindings. -/
theorem normalize_def (tr : Trace) :
    tr.normalize = ⟨tr.size, tr.bitwidth,
      (tr.trace.filter (fun line => line.any (fun s => s.isSome))).map
        (padLine (listMax ((tr.trace.filter
          (fun line => line.any (fun s => s.isSome))).map List.length)))⟩ := rfl

/-- C7: after a successful `Trace::parse_trace`, no stored line is entirely
absent, every line's length is `num_ports`, which equals the maximum length
among the kept input lines, and normalization is idempotent. -/
theorem c7_normalize_theorem (t : Trace) :
    (∀ line ∈ (Trace.parse_trace t).trace, line.any (fun s => s.isSome) = true) ∧
    (∀ line ∈ (Trace.parse_trace t).trace,
      line.length = (Trace.parse_trace t).num_ports) ∧
    (Trace.parse_trace t).num_ports
      = listMax ((t.trace.filter
          (fun line => line.any (fun s => s.isSome))).map List.length) ∧
    (Trace.parse_trace t).normalize = Trace.parse_trace t := by
  have hany : ∀ line ∈ (Trace.parse_trace t).trace,
      line.any (fun s => s.isSome) = true := by
    intro line hline
    rcases List.mem_map.mp hline with ⟨l, hl, hpad⟩
    have hp : l.any (fun s => s.isSome) = true := (List.mem_filter.mp hl).2
    rw [← hpad, padLine_any, hp]
  have hlen : ∀ line ∈ (Trace.parse_trace t).trace,
      line.length = listMax ((t.trace.filter
        (fun line => line.any (fun s => s.isSome))).map List.length) := by
    intro line hline
    rcases List.mem_map.mp hline with ⟨l, hl, hpad⟩
    have hmem : l.length ∈ (t.trace.filter
        (fun line => line.any (fun s => s.isSome))).map List.length :=
      List.mem_map.mpr ⟨l, hl, rfl⟩
    rw [← hpad, padLine_length (le_listMax hmem)]
  have hports : (Trace.parse_trace t).num_ports
      = listMax ((t.trace.filter
          (fun line => line.any (fun s => s.isSome))).map List.length) := by
    rcases hk : (t.trace.filter (fun line => line.any (fun s => s.isSome))) with
      _ | ⟨l, ls⟩
    · show Trace.num_ports _ = _
      unfold Trace.parse_trace Trace.normalize Trace.num_ports
      simp [hk, listMax]
    · have hmem : padLine (listMax ((t.trace.filter
          (fun line => line.any (fun s => s.isSome))).map List.length)) l
          ∈ (Trace.parse_trace t).trace := by
        show _ ∈ (t.trace.filter _).map _
        rw [hk]
        exact List.mem_map.mpr ⟨l, List.mem_cons_self _ _, rfl⟩
      have hplen := hlen _ hmem
      rw [← hplen]
      show Trace.num_ports _ = _
      unfold Trace.parse_trace Trace.normalize Trace.num_ports
      simp only [hk, List.map_cons]
  refine ⟨hany, ?_, hports, ?_⟩
  · intro line hline
    rw [hlen line hline, hports]
  · have hfix : ((Trace.parse_trace t).trace.filter
        (fun line => line.any (fun s => s.isSome))) = (Trace.parse_trace t).trace :=
      List.filter_eq_self.mpr (fun a ha => by rw [hany a ha])
    have hpads : (Trace.parse_trace t).trace.map
        (padLine (listMax ((Trace.parse_trace t).trace.map List.length)))
        = (Trace.parse_trace t).trace := by
      have hall : ∀ a ∈ (Trace.parse_trace t).trace.map List.length,
          a = (Trace.parse_trace t).num_ports := by
        intro a ha
        rcases List.mem_map.mp ha with ⟨line, hline, hlen2⟩
        rw [← hlen2, hlen line hline, hports]
      rcases listMax_all_eq hall with hnil | hmax
      · have hempty : (Trace.parse_trace t).trace = [] := by
          cases h2 : (Trace.parse_trace t).trace with
          | nil => rfl
          | cons l ls =>
            rw [h2] at hnil
            simp at hnil
        rw [hempty]
        rfl
      · rw [hmax]
        have hid : ∀ line ∈ (Trace.parse_trace t).trace,
            padLine ((Trace.parse_trace t).num_ports) line = line :=
          fun line hline => padLine_of_length_eq (by rw [hlen line hline, hports])
        have hmap := List.map_congr_left hid
        rw [hmap, List.map_id']
    rw [normalize_def, hfix, hpads]

/-- C7, witness: the normalization facts at the sparse scenario-4 trace. -/
theorem c7_normalize_witness :
    (∀ line ∈ (Trace.parse_trace traceC7).trace,
      line.any (fun s => s.isSome) = true) ∧
    (∀ line ∈ (Trace.parse_trace traceC7).trace,
      line.length = (Trace.parse_trace traceC7).num_ports) ∧
    (Trace.parse_trace traceC7).num_ports
      = listMax ((traceC7.trace.filter
          (fun line => line.any (fun s => s.isSome))).map List.length) ∧
    (Trace.parse_trace traceC7).normalize = Trace.parse_trace traceC7 :=
  c7_normalize_theorem traceC7

/-- C5, witness: the amended evaluation facts at `v = 3`, `amount = 2`,
`a = 5`. -/
theorem c5_eval_witness :
    (5 : Nat) < 2 ^ 64 ∧ (3 : Nat) < 2 ^ 64 ∧
    (TerminalRoutingProgram.eval .Noop 5 = 5 ∧
      TerminalRoutingProgram.eval (.Constant 3) 5 = 3 ∧
      TerminalRoutingProgram.eval (.RShift 2) 5 = 5 / 2 ^ (2 % 64) ∧
      TerminalRoutingProgram.eval (.Add 3) 5 = (5 + 3) % 2 ^ 64 ∧
      (3 ≤ 5 → TerminalRoutingProgram.eval (.SubPortVal 3) 5 = 5 - 3) ∧
      (5 < 3 → TerminalRoutingProgram.eval (.SubPortVal 3) 5 = 2 ^ 64 + 5 - 3) ∧
      (5 ≤ 3 → TerminalRoutingProgram.eval (.SubValPort 3) 5 = 3 - 5) ∧
      (3 < 5 → TerminalRoutingProgram.eval (.SubValPort 3) 5 = 2 ^ 64 + 3 - 5)) :=
  ⟨by decide, by decide, c5_eval_amended 3 2 5 (by decide) (by decide)⟩

/-! ## Claim C2 -/

theorem vailidateLine_spec (banks : List MemoryBank) :
    ∀ (ln : List (Option Nat)) (idx : Nat), idx + ln.length ≤ banks.length →
      vailidateLine banks idx ln ≠ none ∧
      (vailidateLine banks idx ln = some true ↔
        ∀ (j a : Nat) (b : MemoryBank), ln[j]? = some (some a) →
          banks[idx + j]? = some b → b.can_read a = true) := by
  intro ln
  induction ln with
  | nil =>
    intro idx hfit
    refine ⟨by simp [vailidateLine], ?_⟩
    constructor
    · intro _ j a b hj hb
      simp at hj
    · intro _
      rfl
  | cons slot rest ih =>
    intro idx hfit
    have hfit2 : (idx + 1) + rest.length ≤ banks.length := by
      simp at hfit
      omega
    have ihh := ih (idx + 1) hfit2
    rcases slot with _ | a
    · have heq : vailidateLine banks idx (none :: rest)
          = vailidateLine banks (idx + 1) rest := rfl
      refine ⟨by rw [heq]; exact ihh.1, ?_⟩
      rw [heq, ihh.2]
      constructor
      · intro h j a b hj hb
        cases j with
        | zero => simp at hj
        | succ j2 =>
          simp only [List.getElem?_cons_succ] at hj
          refine h j2 a b hj ?_
          rw [← hb]
          congr 1
          omega
      · intro h j a b hj hb
        refine h (j + 1) a b (by simpa using hj) ?_
        rw [← hb]
        congr 1
        omega
    · have hidx : idx < banks.length := by
        simp at hfit
        omega
      obtain ⟨b0, hb0⟩ : ∃ b0, banks[idx]? = some b0 := by
        rw [List.getElem?_eq_getElem hidx]
        exact ⟨_, rfl⟩
      by_cases hcr : b0.can_read a = true
      · have heq : vailidateLine banks idx (some a :: rest)
            = vailidateLine banks (idx + 1) rest := by
          simp [vailidateLine, hb0, hcr]
        rw [heq]
        refine ⟨ihh.1, ?_⟩
        rw [ihh.2]
        constructor
        · intro h j a2 b hj hb
          cases j with
          | zero =>
            simp only [List.getElem?_cons_zero, Option.some.injEq] at hj
            rw [Nat.add_zero] at hb
            rw [hb0] at hb
            cases hb
            cases hj
            exact hcr
          | succ j2 =>
            simp only [List.getElem?_cons_succ] at hj
            refine h j2 a2 b hj ?_
            rw [← hb]
            congr 1
            omega
        · intro h j a2 b hj hb
          refine h (j + 1) a2 b (by simpa using hj) ?_
          rw [← hb]
          congr 1
          omega
      · have heq : vailidateLine banks idx (some a :: rest) = some false := by
          simp [vailidateLine, hb0, hcr]
        rw [heq]
        refine ⟨by simp, ?_⟩
        constructor
        · intro h
          cases h
        · intro h
          have := h 0 a b0 (by simp) (by rw [Nat.add_zero]; exact hb0)
          exact absurd this hcr

theorem vailidateLines_spec (banks : List MemoryBank) :
    ∀ (lines : List (List (Option Nat))),
      (∀ line ∈ lines, line.length ≤ banks.length) →
      vailidateLines banks lines ≠ none ∧
      (vailidateLines banks lines = some true ↔
        ∀ ln ∈ lines, ∀ (j a : Nat) (b : MemoryBank), ln[j]? = some (some a) →
          banks[j]? = some b → b.can_read a = true) := by
  intro lines
  induction lines with
  | nil =>
    intro _
    refine ⟨by simp [vailidateLines], ?_⟩
    constructor
    · intro _ ln hln
      cases hln
    · intro _
      rfl
  | cons line rest ih =>
    intro hfit
    have hline : 0 + line.length ≤ banks.length := by
      have := hfit line (List.mem_cons_self _ _)
      omega
    have hl := vailidateLine_spec banks line 0 hline
    have ihh := ih (fun l hl2 => hfit l (List.mem_cons_of_mem _ hl2))
    rcases hv : vailidateLine banks 0 line with _ | b
    · exact absurd hv hl.1
    · rcases b with _ | _
      · -- some false
        have heq : vailidateLines banks (line :: rest) = some false := by
          simp [vailidateLines, hv]
        rw [heq]
        refine ⟨by simp, ?_⟩
        constructor
        · intro h
          cases h
        · intro h
          have hline_ok : vailidateLine banks 0 line = some true := by
            rw [hl.2]
            intro j a b hj hb
            exact h line (List.mem_cons_self _ _) j a b hj
              (by rw [← hb]; congr 1; omega)
          rw [hv] at hline_ok
          cases hline_ok
      · -- some true
        have heq : vailidateLines banks (line :: rest) = vailidateLines banks rest := by
          simp [vailidateLines, hv]
        rw [heq]
        refine ⟨ihh.1, ?_⟩
        rw [ihh.2]
        constructor
        · intro h l hl2 j a b hj hb
          rcases List.mem_cons.mp hl2 with h1 | h2
          · subst h1
            have := (hl.2.mp hv) j a b hj (by rw [← hb]; congr 1; omega)
            exact this
          · exact h l h2 j a b hj hb
        · intro h l hl2 j a b hj hb
          exact h l (List.mem_cons_of_mem _ hl2) j a b hj hb

/-- C2: under the well-formedness condition that every trace line fits within
the bank list (otherwise the Rust indexing `self.banks[idx]` panics),
`Component::vailidate` never panics, and it returns `true` exactly when every
non-absent request `a` at every port index `p` satisfies
`banks[p].can_read(a)` — i.e. `layout.get(routing.eval(a)) = Some(a)`; by
totality, a single failing or out-of-layout request therefore makes it return
`false`. -/
theorem c2_vailidate_iff (c : Component) (t : Trace)
    (h : ∀ line ∈ t.trace, line.length ≤ c.banks.length) :
    c.vailidate t ≠ none ∧
    (c.vailidate t = some true ↔
      ∀ ln ∈ t.trace, ∀ (p a : Nat) (b : MemoryBank), ln[p]? = some (some a) →
        c.banks[p]? = some b → b.can_read a = true) :=
  vailidateLines_spec c.banks t.trace h

/-- C2, witness: the characterization applied to a concrete component and
trace. -/
theorem c2_vailidate_witness :
    (∀ line ∈ traceC2.trace, line.length ≤ compC2.banks.length) ∧
    (compC2.vailidate traceC2 ≠ none ∧
      (compC2.vailidate traceC2 = some true ↔
        ∀ ln ∈ traceC2.trace, ∀ (p a : Nat) (b : MemoryBank), ln[p]? = some (some a) →
          compC2.banks[p]? = some b → b.can_read a = true)) :=
  ⟨by decide, c2_vailidate_iff compC2 traceC2 (by decide)⟩

/-! ## Claim C1 -/

theorem getElem_zip_mem {α β : Type} :
    ∀ (l1 : List α) (l2 : List β) (j : Nat) (x : α) (y : β),
      l1[j]? = some x → l2[j]? = some y → (x, y) ∈ l1.zip l2 := by
  intro l1
  induction l1 with
  | nil =>
    intro l2 j x y hx hy
    simp at hx
  | cons h1 t1 ih =>
    intro l2 j x y hx hy
    cases l2 with
    | nil => simp at hy
    | cons h2 t2 =>
      cases j with
      | zero =>
        rw [List.getElem?_cons_zero] at hx hy
        cases hx
        cases hy
        rw [List.zip_cons_cons]
        exact List.mem_cons_self _ _
      | succ j2 =>
        rw [List.getElem?_cons_succ] at hx hy
        rw [List.zip_cons_cons]
        exact List.mem_cons_of_mem _ (ih t2 j2 x y hx hy)

theorem tlm_single_get (S F ST o : Nat)
    (hlt : o < MemoryLayout.size (.Range S F ST)) :
    TopLevelMemoryLayout.get ⟨[.Range S F ST]⟩ o = some (S + ST * o) := by
  show tlmGet [.Range S F ST] o = _
  rw [tlmGet, if_pos hlt, MemoryLayout.get, if_neg (by omega)]

theorem liftBank_can_read (w size : Nat) (pa : PortAssignment) (a : Nat)
    (hb : bankConds size pa.bank) (hr : requestConds w size pa a)
    (hagree : (liftTerminal pa.prog).eval a = smtOut w pa.prog a) :
    (liftBank pa).can_read a = true := by
  obtain ⟨hb1, hb2, hb3, hb4⟩ := hb
  obtain ⟨h1, h2, _h3, _h4⟩ := hr
  have hS : ((pa.bank.start_v.toNat : Nat) : Int) = pa.bank.start_v :=
    Int.toNat_of_nonneg hb1
  have hF : ((pa.bank.end_v.toNat : Nat) : Int) = pa.bank.end_v :=
    Int.toNat_of_nonneg (by omega)
  have hST : ((pa.bank.stride_v.toNat : Nat) : Int) = pa.bank.stride_v :=
    Int.toNat_of_nonneg (by omega)
  set S := pa.bank.start_v.toNat with hSdef
  set F := pa.bank.end_v.toNat with hFdef
  set ST := pa.bank.stride_v.toNat with hSTdef
  set o := smtOut w pa.prog a with hodef
  have hSTpos : 0 < ST := by omega
  have hcast : S + o * ST < F := by
    have h1a : (S : Int) + (o : Int) * (ST : Int) < (F : Int) := by
      rw [hS, hF, hST]
      exact h1
    exact_mod_cast h1a
  have heqa : S + o * ST = a := by
    have h2a : (S : Int) + (o : Int) * (ST : Int) = (a : Int) := by
      rw [hS, hST]
      exact h2
    exact_mod_cast h2a
  have hlt : o < MemoryLayout.size (.Range S F ST) := by
    show o < (F - S) / ST + 1
    have hle : o ≤ (F - S) / ST := by
      rw [Nat.le_div_iff_mul_le hSTpos]
      omega
    omega
  have hev : (liftBank pa).routing.eval a = o := hagree
  have hget : (liftBank pa).memory_layout.get o = some (S + ST * o) :=
    tlm_single_get S F ST o hlt
  unfold MemoryBank.can_read
  rw [hev, hget]
  show (S + ST * o == a) = true
  rw [beq_iff_eq, Nat.mul_comm ST o]
  exact heqa

theorem cost_factor_ge_one (size : Nat) (pa : PortAssignment)
    (h : bankConds size pa.bank) :
    1 ≤ (pa.bank.end_v - pa.bank.start_v) / pa.bank.stride_v + 1 := by
  obtain ⟨h1, h2, h3, h4⟩ := h
  have hnn : 0 ≤ (pa.bank.end_v - pa.bank.start_v) / pa.bank.stride_v :=
    Int.ediv_nonneg (by omega) (by omega)
  omega

theorem cost_fold_ge (size : Nat) :
    ∀ (l : List PortAssignment), (∀ pa ∈ l, bankConds size pa.bank) →
      ∀ acc : Int, 1 ≤ acc →
        1 ≤ l.foldl (fun acc pa =>
          acc * ((pa.bank.end_v - pa.bank.start_v) / pa.bank.stride_v + 1)) acc := by
  intro l
  induction l with
  | nil =>
    intro _ acc hacc
    simpa using hacc
  | cons pa rest ih =>
    intro hall acc hacc
    show 1 ≤ List.foldl _
      (acc * ((pa.bank.end_v - pa.bank.start_v) / pa.bank.stride_v + 1)) rest
    apply ih (fun q hq => hall q (List.mem_cons_of_mem _ hq))
    have hf := cost_factor_ge_one size pa (hall pa (List.mem_cons_self _ _))
    nlinarith

theorem partition_cost_ge_one (t : Trace) (asg : List PortAssignment)
    (h : satisfies t asg) : 1 ≤ partition_cost asg :=
  cost_fold_ge t.size asg h.2.2.1 1 le_rfl

/-- C1, counterexample: `asgC1bad` satisfies every constraint `solve_trace`
asserts for `traceC1bad` and attains the minimum possible cost 1, so the
optimizer may return it; yet the component lifted from it fails validation —
the width-1 bit-vector encoding wraps `1 + 1` to `0` while the lifted domain
routing computes `2`, which falls outside the bank.  Thus a successful
synthesis is not guaranteed to validate. -/
theorem c1_synthesis_counterexample :
    satisfies traceC1bad asgC1bad ∧
    partition_cost asgC1bad = 1 ∧
    (∀ asg, satisfies traceC1bad asg → 1 ≤ partition_cost asg) ∧
    (extract_description traceC1bad asgC1bad).vailidate traceC1bad = some false :=
  ⟨by decide, by decide, fun asg h => partition_cost_ge_one traceC1bad asg h, by decide⟩

/-- C1, amended: for every trace and every model assignment satisfying the
asserted constraints, the extracted component has `num_ports` banks and
carries the trace's `size`; and it validates the trace provided the `u64`
domain evaluation of each lifted routing program agrees, on each of that
port's requested addresses, with the width-`addr_size` bit-vector evaluation
used in the SMT encoding. -/
theorem c1_synthesis_amended (t : Trace) (asg : List PortAssignment)
    (hsat : satisfies t asg)
    (hagree : ∀ ln ∈ t.trace, ∀ pr ∈ ln.zip asg,
      agreeSlot (bits_required t.size) pr.2 pr.1) :
    (extract_description t asg).banks.length = t.num_ports ∧
    (extract_description t asg).size = t.size ∧
    (extract_description t asg).vailidate t = some true := by
  obtain ⟨hlen, hwf, hbank, hreq⟩ := hsat
  have hbanks_len : (extract_description t asg).banks.length = asg.length :=
    List.length_map _ _
  refine ⟨by rw [hbanks_len, hlen], rfl, ?_⟩
  have hfit : ∀ ln ∈ t.trace, ln.length ≤ (extract_description t asg).banks.length := by
    intro ln hln
    rw [hbanks_len]
    exact (hreq ln hln).1
  refine ((vailidateLines_spec (extract_description t asg).banks t.trace hfit).2).mpr ?_
  intro ln hln j a b hj hb
  have hjlt : j < ln.length := by
    by_contra hc
    rw [List.getElem?_eq_none (by omega)] at hj
    cases hj
  have hjasg : j < asg.length := lt_of_lt_of_le hjlt ((hreq ln hln).1)
  have hb2 : (asg.map liftBank)[j]? = some b := hb
  rw [List.getElem?_map, List.getElem?_eq_getElem hjasg, Option.map_some'] at hb2
  have hbval : b = liftBank (asg[j]) := by
    cases hb2
    rfl
  have hmem : ((some a : Option Nat), asg[j]) ∈ ln.zip asg :=
    getElem_zip_mem ln asg j _ _ hj (List.getElem?_eq_getElem hjasg)
  have hslot : requestConds (bits_required t.size) t.size (asg[j]) a :=
    (hreq ln hln).2 _ hmem
  have hag : (liftTerminal (asg[j]).prog).eval a
      = smtOut (bits_required t.size) (asg[j]).prog a :=
    hagree ln hln _ hmem
  rw [hbval]
  exact liftBank_can_read (bits_required t.size) t.size (asg[j]) a
    (hbank _ (List.of_mem_zip hmem).2) hslot hag

/-- C1, witness: the amended theorem at the single-port identity scenario. -/
theorem c1_synthesis_witness :
    satisfies traceC1good asgC1good ∧
    (∀ ln ∈ traceC1good.trace, ∀ pr ∈ ln.zip asgC1good,
      agreeSlot (bits_required traceC1good.size) pr.2 pr.1) ∧
    ((extract_description traceC1good asgC1good).banks.length
        = traceC1good.num_ports ∧
      (extract_description traceC1good asgC1good).size = traceC1good.size ∧
      (extract_description traceC1good asgC1good).vailidate traceC1good
        = some true) :=
  ⟨by decide, by decide, c1_synthesis_amended traceC1good asgC1good
    (by decide) (by decide)⟩

/-! ## Claim C4 -/

/-- C4: on `traceUnsat` the asserted constraints are unsatisfiable (`actual = 5`
conflicts with `actual < size = 2`), so `solver.get_model()` yields no model;
`solve_trace` then hits `.unwrap()` on `None` and panics (embedded: `none`).
No `Unsatisfiable` error value exists anywhere in the code and none is
returned — `solve_trace`'s result type is `Component`, not a `Result` — so
the claimed surfacing of an `Unsatisfiable` error to the caller does not
happen; the code indeed never relaxes constraints or retries, but it aborts
instead of failing with an error. -/
theorem c4_unsat_panics :
    (∀ asg, ¬ satisfies traceUnsat asg) ∧ solve_trace traceUnsat none = none := by
  constructor
  · intro asg hsat
    have hline := hsat.2.2.2 [some 5] (List.mem_cons_self _ _)
    rcases asg with _ | ⟨pa, rest⟩
    · simp at hline
    · have hm : ((some 5 : Option Nat), pa) ∈ ([some 5].zip (pa :: rest)) := by
        rw [List.zip_cons_cons]
        exact List.mem_cons_self _ _
      have hslot : requestConds (bits_required traceUnsat.size) traceUnsat.size pa 5 :=
        hline.2 _ hm
      obtain ⟨h1, h2, h3, h4⟩ := hslot
      rw [h2] at h3
      norm_num [traceUnsat] at h3
  · rfl

/-! ## Claim C8 -/

/-- C8, counterexample: a synthesized component over a size-16, width-8 trace
has `address_bit_width = bits_required 16 = 4`, but re-parsing its pretty
print rebuilds the component with `Component::from_parse`, which sets
`address_bit_width = bits_required width = bits_required 8 = 3`; the
round trip therefore does not restore the component. -/
theorem c8_roundtrip_counterexample :
    parse_author_of_pretty compC8 ≠ compC8 ∧
    (parse_author_of_pretty compC8).address_bit_width = 3 ∧
    compC8.address_bit_width = 4 := by
  decide

/-- C8, amended: parsing the author-dialect pretty print of a component
recovers `size`, `width` and the banks exactly, but derives
`address_bit_width` afresh as `bits_required width` and `port_count` as the
number of banks; the round trip is the identity precisely on components whose
`address_bit_width` already equals `bits_required width` and whose
`port_count` equals their number of banks. -/
theorem c8_roundtrip_amended (c : Component) :
    (parse_author_of_pretty c).size = c.size ∧
    (parse_author_of_pretty c).width = c.width ∧
    (parse_author_of_pretty c).banks = c.banks ∧
    (parse_author_of_pretty c).address_bit_width = bits_required c.width ∧
    (c.address_bit_width = bits_required c.width → c.port_count = c.banks.length →
      parse_author_of_pretty c = c) := by
  refine ⟨rfl, rfl, rfl, rfl, ?_⟩
  intro h1 h2
  cases c with
  | mk s w abw pc banks =>
    simp only at h1 h2
    simp [parse_author_of_pretty, Component.from_parse, h1, h2]

/-- C8, witness: the amended round trip at a component built by `from_parse`,
where the identity does hold. -/
theorem c8_roundtrip_witness :
    ((parse_author_of_pretty compC8W).size = compC8W.size ∧
      (parse_author_of_pretty compC8W).width = compC8W.width ∧
      (parse_author_of_pretty compC8W).banks = compC8W.banks ∧
      (parse_author_of_pretty compC8W).address_bit_width
        = bits_required compC8W.width ∧
      (compC8W.address_bit_width = bits_required compC8W.width →
        compC8W.port_count = compC8W.banks.length →
        parse_author_of_pretty compC8W = compC8W)) ∧
    parse_author_of_pretty compC8W = compC8W :=
  ⟨c8_roundtrip_amended compC8W,
    (c8_roundtrip_amended compC8W).2.2.2.2 (by decide) (by decide)⟩

end MemSyn
